import Mathlib

/-!
Verification of kernel/ptree.c: a system call returning the process tree
in DFS order.

The process hierarchy is modelled as a rose tree (`TaskStruct`): each task
carries the fields `store_node` reads and the ordered list of its children,
in the order of the kernel `children` list (head = `children.next`, the entry
`list_first_entry` yields; last = `children.prev`, the entry
`get_youngest_child_pid` yields).  The iterative walk of `dfs_add` keeps a
pointer `cur` into that structure; we model the pointer as a zipper cursor:
the subtree under `cur` together with the stack of ancestor frames, each frame
holding the ancestor's data, the already-passed left siblings (reversed) and
the remaining right siblings.

The walk is embedded step by step (`step`), including two behaviours visible
only by reading the pointer manipulation closely:

* `init_task.sibling` is a self-looped list head (`init_task` is on no
  parent's children list), so for the childless root `list_is_last` is false
  and `list_first_entry(&cur->sibling)` is the root itself;
* in the climb loop (ptree.c lines 122-126) the head `list` is computed once,
  before the loop, and never recomputed while `cur` climbs, so the loop's
  test is only meaningful on its first iteration; on the second iteration it
  compares against a stale head and is always false, and if the node reached
  by the second climb is itself a last child of a non-root parent,
  `list_first_entry(&cur->sibling)` is `container_of` applied to a list head
  that is not inside a `task_struct` (modelled as `StepRes.crash`).

Fallible external collaborators of `sys_ptree` (`get_user`, `kmalloc_array`,
`copy_to_user`, `put_user`) are modelled by an environment `SysEnv` recording
which of them fail; `copy_to_user` returns the number of bytes it could NOT
copy, a non-negative count (0 on success).
-/

namespace Ptree

/-- The fields of one task that ptree.c reads directly from a `task_struct`:
`pid` (via `task_pid_nr`), `state`, `uid` (via `real_cred`), `comm`
(via `get_task_comm`). -/
structure TaskData where
  pid : Int
  state : Int
  uid : Int
  comm : String
deriving Repr, DecidableEq, Inhabited

/-- A task together with its list of children.  The list order is the order
of the kernel `children` list: the head is `list_first_entry(&children)`
(where the traversal descends), the last element is the `children.prev`
entry (what `get_youngest_child_pid` reads). -/
inductive TaskStruct : Type where
  | mk : TaskData → List TaskStruct → TaskStruct
deriving Repr, Inhabited

/-- The data stored at a node. -/
def TaskStruct.data : TaskStruct → TaskData
  | TaskStruct.mk d _ => d

/-- The children list of a node. -/
def TaskStruct.children : TaskStruct → List TaskStruct
  | TaskStruct.mk _ cs => cs

/-- One ancestor frame of the cursor: the ancestor's data, the left siblings
of the node below it (reversed, most recently passed first) and its right
siblings (in traversal order). -/
abbrev Frame := TaskData × List TaskStruct × List TaskStruct

/-- The ancestor stack of the cursor; `[]` means the cursor is at the root
(`init_task`). -/
abbrev Ctx := List Frame

/-- A position of the walker: the subtree under `cur` plus ancestors. -/
abbrev Cursor := TaskStruct × Ctx

/-- The record filled by `store_node` (struct prinfo). -/
structure Prinfo where
  parent_pid : Int
  pid : Int
  first_child_pid : Int
  next_sibling_pid : Int
  state : Int
  uid : Int
  comm : String
deriving Repr, DecidableEq, Inhabited

/-- store_node (ptree.c lines 70-79), evaluated at a cursor:

* `parent_pid` = `task_pid_nr(tsk->real_parent)`: the parent frame's pid,
  and the root's own pid for the root (`init_task.real_parent == &init_task`);
* `first_child_pid` = `get_youngest_child_pid`: the pid of the entry at
  `children.prev`, i.e. the LAST element of the children list, 0 if childless;
* `next_sibling_pid` = `get_next_sibling_pid`: 0 when last among siblings,
  else the next sibling's pid; for the root, `list_is_last(&init_task.sibling,
  &init_task.children)` is false (self-looped sibling head) and
  `list_entry(init_task.sibling.next)` is `init_task` itself, so the field
  holds the root's own pid. -/
def store_node : Cursor → Prinfo
  | (TaskStruct.mk d cs, ctx) =>
    { parent_pid :=
        match ctx with
        | [] => d.pid
        | (pd, _, _) :: _ => pd.pid
      pid := d.pid
      first_child_pid :=
        match cs.getLast? with
        | none => 0
        | some c => c.data.pid
      next_sibling_pid :=
        match ctx with
        | [] => d.pid
        | (_, _, []) :: _ => 0
        | (_, _, r :: _) :: _ => r.data.pid
      state := d.state
      uid := d.uid
      comm := d.comm }

/-- Result of one iteration of the `while (1)` loop of `dfs_add` after the
store/count: either the loop breaks (`halt`), or `cur` moves to another task
(`next`), or `cur` is set to a `container_of` of a list head that is not a
task's sibling field — undefined behaviour (`crash`). -/
inductive StepRes : Type where
  | halt : StepRes
  | next : Cursor → StepRes
  | crash : StepRes

/-- Whether a step outcome is the undefined-behaviour case. -/
def isCrash : StepRes → Bool
  | StepRes.crash => true
  | _ => false

/-- One move of `cur` in `dfs_add` (ptree.c lines 103-132), translated arm
by arm:

1. children non-empty (line 104): descend to `list_first_entry(&cur->children)`,
   the head of the children list;
2. childless root (lines 111-116 at `init_task`): `list_is_last(&init_task.
   sibling, &init_task.children)` is false because `init_task.sibling` is a
   self-looped head, so the code "moves to the next sibling", which is
   `init_task` itself — the walk loops on the root forever;
3. childless with a next sibling (line 112): move across;
4. childless and last (lines 122-132): `cur = cur->real_parent; list =
   &cur->parent->children;` then the while loop.  `list` is NOT recomputed
   inside the loop.  Its first test (against the parent) is correct; if the
   parent is a last child too, the second test compares the grandparent's
   sibling link against the stale head and is always false, so the loop
   exits at the grandparent no matter what:
   - parent is the root: loop exits, `list_first_entry(&init_task.sibling)`
     is the root, `cur == &init_task` → break;
   - parent has a next sibling: move to it;
   - parent last, grandparent root: break, as above;
   - parent last, grandparent has a next sibling: move to it (the stale test
     exits the loop, and `list_first_entry` happens to yield that sibling);
   - parent last, grandparent itself a last child of a non-root node:
     `list_first_entry(&cur->sibling)` is `container_of(&parent->children)`,
     not a task — undefined behaviour. -/
def step : Cursor → StepRes
  | (TaskStruct.mk d (c :: cs), ctx) =>
      StepRes.next (c, (d, [], cs) :: ctx)
  | (TaskStruct.mk d [], []) =>
      StepRes.next (TaskStruct.mk d [], [])
  | (TaskStruct.mk d [], (pd, ls, r :: rs) :: rest) =>
      StepRes.next (r, (pd, TaskStruct.mk d [] :: ls, rs) :: rest)
  | (TaskStruct.mk d [], (pd1, ls1, []) :: rest) =>
      match rest with
      | [] => StepRes.halt
      | (pd2, ls2, r :: rs) :: rest2 =>
          StepRes.next (r, (pd2,
            TaskStruct.mk pd1 (ls1.reverse ++ [TaskStruct.mk d []]) :: ls2,
            rs) :: rest2)
      | (pd2, ls2, []) :: rest2 =>
          match rest2 with
          | [] => StepRes.halt
          | (pd3, ls3, r :: rs) :: rest3 =>
              StepRes.next (r, (pd3,
                TaskStruct.mk pd2 (ls2.reverse ++
                  [TaskStruct.mk pd1 (ls1.reverse ++ [TaskStruct.mk d []])]) :: ls3,
                rs) :: rest3)
          | (_, _, []) :: _ => StepRes.crash

/-- How a bounded execution of the walk ended. -/
inductive RunStatus : Type where
  | done : RunStatus
  | fuelOut : RunStatus
  | crashed : RunStatus
deriving Repr, DecidableEq

/-- Fuel-bounded execution of the `while (1)` loop of `dfs_add` from a
cursor: the list of cursors visited (one per loop iteration, in order) and
how the execution ended.  `fuelOut` means the loop was still running after
`fuel` iterations. -/
def run : Nat → Cursor → List Cursor × RunStatus
  | 0, _ => ([], RunStatus.fuelOut)
  | fuel + 1, c =>
    match step c with
    | StepRes.halt => ([c], RunStatus.done)
    | StepRes.crash => ([c], RunStatus.crashed)
    | StepRes.next c2 => (c :: (run fuel c2).1, (run fuel c2).2)

mutual
/-- Number of tasks in a subtree — what `get_num_of_processes` counts when
the subtree is the whole system. -/
def sizeT : TaskStruct → Nat
  | TaskStruct.mk _ cs => 1 + sizeL cs
/-- Number of tasks in a forest of subtrees. -/
def sizeL : List TaskStruct → Nat
  | [] => 0
  | c :: cs => sizeT c + sizeL cs
end

mutual
/-- Specification-side definition (from the spec's words): the cursors of a
subtree in DFS pre-order — the node first, then the children's subtrees left
to right.  Each node of the subtree contributes exactly one cursor.  The
refinement theorems compare the cursors actually visited by `run` with this
enumeration. -/
def preorderCursors : TaskStruct → Ctx → List Cursor
  | TaskStruct.mk d cs, ctx =>
      (TaskStruct.mk d cs, ctx) :: preorderSibs cs d [] ctx
/-- Pre-order cursors of a forest of consecutive siblings below a parent
with data `d`; `ls` holds the siblings already passed, reversed. -/
def preorderSibs : List TaskStruct → TaskData → List TaskStruct → Ctx → List Cursor
  | [], _, _, _ => []
  | c :: cs, d, ls, ctx =>
      preorderCursors c ((d, ls, cs) :: ctx) ++ preorderSibs cs d (c :: ls) ctx
end

mutual
/-- True when no cursor of the subtree's pre-order enumeration makes `step`
hit the undefined-behaviour case, i.e. the walk of this subtree in this
context never climbs through two consecutive non-root last children. -/
def goodT : TaskStruct → Ctx → Bool
  | TaskStruct.mk d cs, ctx =>
      !isCrash (step (TaskStruct.mk d cs, ctx)) && goodL cs d [] ctx
/-- `goodT` for a forest of consecutive siblings. -/
def goodL : List TaskStruct → TaskData → List TaskStruct → Ctx → Bool
  | [], _, _, _ => true
  | c :: cs, d, ls, ctx =>
      goodT c ((d, ls, cs) :: ctx) && goodL cs d (c :: ls) ctx
end

/-- The climb the comment above the loop (ptree.c lines 118-121) describes:
pop ancestors while they are last children, then move to the first ancestor's
next sibling, or stop (`none`) when the root is reached.  The first argument
is the already rebuilt subtree of the node being popped.  `step` coincides
with this whenever it does not crash (`step_climb`). -/
def climbFrom : TaskStruct → Ctx → Option Cursor
  | _, [] => none
  | t, (pd, ls, []) :: rest =>
      climbFrom (TaskStruct.mk pd (ls.reverse ++ [t])) rest
  | t, (pd, ls, r :: rs) :: rest =>
      some (r, (pd, t :: ls, rs) :: rest)

/-- View an optional next cursor as a step outcome. -/
def contRes : Option Cursor → StepRes
  | none => StepRes.halt
  | some c => StepRes.next c

/-- Continue running from an optional next cursor (halt when `none`). -/
def cont : Option Cursor → Nat → List Cursor × RunStatus
  | none, _ => ([], RunStatus.done)
  | some c, f => run f c

/-- What a run of a subtree should produce: its pre-order cursors followed
by whatever running the continuation after the subtree produces. -/
def runSpec (t : TaskStruct) (ctx : Ctx) (f : Nat) : List Cursor × RunStatus :=
  (preorderCursors t ctx ++ (cont (climbFrom t ctx) f).1,
   (cont (climbFrom t ctx) f).2)

/-- The loop of `dfs_add` (ptree.c lines 97-133) with fuel: `buf` is the
content of the record buffer so far, `iterations` the loop counter, `knr`
the slot count `*knr`.  A record is appended only while `iterations < knr`
(line 100); the function returns `none` when the fuel runs out (the loop is
still running) or when the walk hits undefined behaviour. -/
def dfsLoop : Nat → Cursor → Nat → Nat → List Prinfo → Option (List Prinfo × Nat)
  | 0, _, _, _, _ => none
  | fuel + 1, c, iterations, knr, buf =>
    let buf2 := if iterations < knr then buf ++ [store_node c] else buf
    match step c with
    | StepRes.halt => some (buf2, iterations + 1)
    | StepRes.crash => none
    | StepRes.next c2 => dfsLoop fuel c2 (iterations + 1) knr buf2

/-- dfs_add (ptree.c lines 91-137): walk the tree from `init_task` (the root
of `t`), store at most `knr` records, set `*knr` to the number actually
stored (`iterations < *knr ? iterations : *knr`, line 135) and return the
iteration count.  Result: `(buffer, *knr after, return value)`; `none` when
the loop does not terminate normally. -/
def dfs_add (fuel : Nat) (t : TaskStruct) (knr : Nat) :
    Option (List Prinfo × Nat × Nat) :=
  match dfsLoop fuel (t, []) 0 knr [] with
  | none => none
  | some (buf, iterations) =>
      some (buf, if iterations < knr then iterations else knr, iterations)

/-- The MIN macro of ptree.c line 16. -/
def MIN (a b : Int) : Int := if a < b then a else b

/-- EXTRA_SLOTS (ptree.c line 15). -/
def EXTRA_SLOTS : Int := 15

/-- errno constants from asm-generic/errno-base.h. -/
def EINVAL : Int := 22

def EFAULT : Int := 14

def ENOMEM : Int := 12

/-- Behaviour of the external collaborators of `sys_ptree` for one call:
whether `buf`/`nr` are NULL, whether `get_user` faults, the capacity read
from `*nr`, whether `kmalloc_array` returns NULL, how many bytes
`copy_to_user` fails to copy (0 = full success; `copy_to_user` returns this
non-negative count), and whether `put_user` faults. -/
structure SysEnv where
  bufNull : Bool
  nrNull : Bool
  getUserFault : Bool
  nrIn : Int
  allocFault : Bool
  copyFailBytes : Nat
  putUserFault : Bool
deriving Repr, DecidableEq

/-- Observable outcome of one `sys_ptree` call: the return value (`none`
when the call never returns), the value successfully written back to `*nr`
by `put_user` (`none` when `put_user` was not reached or faulted), the
record buffer handed to `copy_to_user` (`none` when the copy was never
attempted), and the slot count of the successfully allocated kernel buffer
(`none` when allocation was not reached or failed). -/
structure SysOutcome where
  ret : Option Int
  nrOut : Option Int
  copied : Option (List Prinfo)
  allocSlots : Option Int
deriving Repr, DecidableEq

/-- The local `kslots` of `sys_ptree` (ptree.c line 180):
`MIN(nproc + EXTRA_SLOTS, knr)` with `nproc` the process count probed under
the read lock. -/
def kslotsOf (env : SysEnv) (t : TaskStruct) : Int :=
  MIN ((sizeT t : Int) + EXTRA_SLOTS) env.nrIn

/-- sys_ptree (ptree.c lines 148-210), translated branch by branch:
NULL checks (-EINVAL), `get_user` (-EFAULT on fault), `knr < 1` (-EINVAL),
`kslots = MIN(nproc + EXTRA_SLOTS, knr)` with `nproc` the process count
probed under the read lock, allocation (-ENOMEM on failure), the walk, then
`copy_to_user` and `put_user`.  `copy_to_user` returns the number of bytes
not copied — a non-negative count assigned to `rval`, so the check
`rval < 0` (line 195) can never fire; the requested copy size is bounded by
the kmalloc'able buffer size, far below 2^31, so the int conversion cannot
wrap. -/
def sys_ptree (env : SysEnv) (t : TaskStruct) (fuel : Nat) : SysOutcome :=
  if env.bufNull || env.nrNull then
    ⟨some (-EINVAL), none, none, none⟩
  else if env.getUserFault then
    ⟨some (-EFAULT), none, none, none⟩
  else if env.nrIn < 1 then
    ⟨some (-EINVAL), none, none, none⟩
  else if env.allocFault then
    ⟨some (-ENOMEM), none, none, none⟩
  else
    match dfs_add fuel t (kslotsOf env t).toNat with
    | none => ⟨none, none, none, some (kslotsOf env t)⟩
    | some (kbuf, knr2, iterations) =>
      if ((env.copyFailBytes : Nat) : Int) < 0 then
        ⟨some (-EFAULT), none, some kbuf, some (kslotsOf env t)⟩
      else if env.putUserFault then
        ⟨some (-EFAULT), none, some kbuf, some (kslotsOf env t)⟩
      else
        ⟨some ((iterations : Nat) : Int), some ((knr2 : Nat) : Int),
         some kbuf, some (kslotsOf env t)⟩

/-- A call with valid pointers, capacity `capacity`, and no collaborator
failures. -/
def cleanEnv (capacity : Int) : SysEnv :=
  ⟨false, false, false, capacity, false, 0, false⟩

/-- A system with only `init_task` and no other process. -/
def singleT : TaskStruct := TaskStruct.mk ⟨1, 0, 0, "init"⟩ []

/-- A childless task with pid 2. -/
def tX : TaskStruct := TaskStruct.mk ⟨2, 0, 0, "x"⟩ []

/-- A childless task with pid 3. -/
def tY : TaskStruct := TaskStruct.mk ⟨3, 0, 0, "y"⟩ []

/-- A root with two children: pids 1(2, 3). -/
def twoKidsT : TaskStruct := TaskStruct.mk ⟨1, 0, 0, "init"⟩ [tX, tY]

/-- Leaf C of the spec's concrete scenario, pid 4. -/
def tC : TaskStruct := TaskStruct.mk ⟨4, 0, 0, "c"⟩ []

/-- Node A of the spec's concrete scenario: pid 2 with child C. -/
def tA : TaskStruct := TaskStruct.mk ⟨2, 0, 0, "a"⟩ [tC]

/-- Node B of the spec's concrete scenario, pid 3. -/
def tB : TaskStruct := TaskStruct.mk ⟨3, 0, 0, "b"⟩ []

/-- The spec's concrete scenario: root R with children A (visited first)
then B, and A has child C.  Expected DFS order R, A, C, B =
pids 1, 2, 4, 3. -/
def racbT : TaskStruct := TaskStruct.mk ⟨1, 0, 0, "init"⟩ [tA, tB]

/-- Leaf of the depth-3 chain, pid 4. -/
def chainZ : TaskStruct := TaskStruct.mk ⟨4, 0, 0, "z"⟩ []

/-- Middle node of the chain, pid 3, with child Z. -/
def chainP : TaskStruct := TaskStruct.mk ⟨3, 0, 0, "p"⟩ [chainZ]

/-- Upper node of the chain, pid 2, with child P. -/
def chainG : TaskStruct := TaskStruct.mk ⟨2, 0, 0, "g"⟩ [chainP]

/-- A chain R(1) → G(2) → P(3) → Z(4): climbing back from Z must ascend
three levels, which the stale-list climb cannot do. -/
def chain4T : TaskStruct := TaskStruct.mk ⟨1, 0, 0, "init"⟩ [chainG]

/-! ### Unfolding equations for the mutual definitions -/

theorem sizeT_mk (d : TaskData) (cs : List TaskStruct) :
    sizeT (TaskStruct.mk d cs) = 1 + sizeL cs := by
  simp [sizeT]

theorem sizeL_nil : sizeL [] = 0 := by simp [sizeL]

theorem sizeL_cons (c : TaskStruct) (cs : List TaskStruct) :
    sizeL (c :: cs) = sizeT c + sizeL cs := by
  simp [sizeL]

theorem preorderCursors_mk (d : TaskData) (cs : List TaskStruct) (ctx : Ctx) :
    preorderCursors (TaskStruct.mk d cs) ctx
      = (TaskStruct.mk d cs, ctx) :: preorderSibs cs d [] ctx := by
  simp [preorderCursors]

theorem preorderSibs_nil (d : TaskData) (ls : List TaskStruct) (ctx : Ctx) :
    preorderSibs [] d ls ctx = [] := by
  simp [preorderSibs]

theorem preorderSibs_cons (c : TaskStruct) (cs : List TaskStruct) (d : TaskData)
    (ls : List TaskStruct) (ctx : Ctx) :
    preorderSibs (c :: cs) d ls ctx
      = preorderCursors c ((d, ls, cs) :: ctx) ++ preorderSibs cs d (c :: ls) ctx := by
  simp [preorderSibs]

theorem goodT_mk (d : TaskData) (cs : List TaskStruct) (ctx : Ctx) :
    goodT (TaskStruct.mk d cs) ctx
      = (!isCrash (step (TaskStruct.mk d cs, ctx)) && goodL cs d [] ctx) := by
  simp [goodT]

theorem goodL_nil (d : TaskData) (ls : List TaskStruct) (ctx : Ctx) :
    goodL [] d ls ctx = true := by
  simp [goodL]

theorem goodL_cons (c : TaskStruct) (cs : List TaskStruct) (d : TaskData)
    (ls : List TaskStruct) (ctx : Ctx) :
    goodL (c :: cs) d ls ctx
      = (goodT c ((d, ls, cs) :: ctx) && goodL cs d (c :: ls) ctx) := by
  simp [goodL]

theorem run_zero (c : Cursor) : run 0 c = ([], RunStatus.fuelOut) := rfl

theorem run_succ_halt {c : Cursor} (fuel : Nat) (h : step c = StepRes.halt) :
    run (fuel + 1) c = ([c], RunStatus.done) := by
  simp [run, h]

theorem run_succ_crash {c : Cursor} (fuel : Nat) (h : step c = StepRes.crash) :
    run (fuel + 1) c = ([c], RunStatus.crashed) := by
  simp [run, h]

theorem run_succ_next {c c2 : Cursor} (fuel : Nat) (h : step c = StepRes.next c2) :
    run (fuel + 1) c = (c :: (run fuel c2).1, (run fuel c2).2) := by
  simp [run, h]

/-- Where `step` does not crash, the climb arm of `step` computes exactly
the intended full climb `climbFrom` (from the rebuilt parent and the rest of
the context). -/
theorem step_climb (d pd : TaskData) (ls : List TaskStruct) (rest : Ctx)
    (h : isCrash (step (TaskStruct.mk d [], (pd, ls, []) :: rest)) = false) :
    step (TaskStruct.mk d [], (pd, ls, []) :: rest)
      = contRes (climbFrom (TaskStruct.mk pd (ls.reverse ++ [TaskStruct.mk d []])) rest) := by
  cases rest with
  | nil => simp [step, climbFrom, contRes]
  | cons fr2 rest2 =>
    obtain ⟨pd2, ls2, rs2⟩ := fr2
    cases rs2 with
    | cons r rs => simp [step, climbFrom, contRes]
    | nil =>
      cases rest2 with
      | nil => simp [step, climbFrom, contRes]
      | cons fr3 rest3 =>
        obtain ⟨pd3, ls3, rs3⟩ := fr3
        cases rs3 with
        | cons r rs => simp [step, climbFrom, contRes]
        | nil => simp [step, isCrash] at h

/-! ### The walk of a subtree is its pre-order enumeration -/

/-- Invariant for one subtree: below any frame, a crash-free run with fuel
for the whole subtree visits exactly the subtree's pre-order cursors and
then behaves like the continuation that `climbFrom` computes. -/
def TreeStmt (t : TaskStruct) : Prop :=
  ∀ fr : Frame, ∀ rest : Ctx, ∀ f : Nat, goodT t (fr :: rest) = true →
    run (sizeT t + f) (t, fr :: rest) = runSpec t (fr :: rest) f

/-- Invariant for a non-empty forest of consecutive siblings. -/
def SibStmt (c : TaskStruct) (cs : List TaskStruct) : Prop :=
  ∀ d : TaskData, ∀ ls : List TaskStruct, ∀ rest : Ctx, ∀ f : Nat,
    goodL (c :: cs) d ls rest = true →
    run (sizeL (c :: cs) + f) (c, (d, ls, cs) :: rest) =
      (preorderSibs (c :: cs) d ls rest ++
         (cont (climbFrom (TaskStruct.mk d (ls.reverse ++ c :: cs)) rest) f).1,
       (cont (climbFrom (TaskStruct.mk d (ls.reverse ++ c :: cs)) rest) f).2)

theorem sim_main : ∀ n : Nat,
    (∀ t, sizeT t ≤ n → TreeStmt t) ∧
    (∀ cs : List TaskStruct, ∀ c : TaskStruct, sizeL (c :: cs) ≤ n → SibStmt c cs) := by
  intro n
  induction n with
  | zero =>
    constructor
    · intro t h
      exfalso
      cases t with
      | mk d cs => simp only [sizeT_mk] at h; omega
    · intro cs c h
      exfalso
      cases c with
      | mk d cs2 => simp only [sizeL_cons, sizeT_mk] at h; omega
  | succ n ih =>
    have hT : ∀ t, sizeT t ≤ n + 1 → TreeStmt t := by
      intro t ht
      cases t with
      | mk d cs =>
        cases cs with
        | nil =>
          intro fr rest f hgood
          obtain ⟨pd, ls, rs⟩ := fr
          have hnc : isCrash (step (TaskStruct.mk d [], (pd, ls, rs) :: rest)) = false := by
            rw [goodT_mk, goodL_nil, Bool.and_true, Bool.not_eq_true'] at hgood
            exact hgood
          have hfuel : sizeT (TaskStruct.mk d []) + f = f + 1 := by
            simp only [sizeT_mk, sizeL_nil]; omega
          rw [hfuel]
          cases rs with
          | cons r rs2 =>
            rw [run_succ_next f (show step (TaskStruct.mk d [], (pd, ls, r :: rs2) :: rest)
              = StepRes.next (r, (pd, TaskStruct.mk d [] :: ls, rs2) :: rest) from rfl)]
            simp [runSpec, preorderCursors_mk, preorderSibs_nil, climbFrom, cont]
          | nil =>
            have hs := step_climb d pd ls rest hnc
            cases hclimb : climbFrom (TaskStruct.mk pd
                (ls.reverse ++ [TaskStruct.mk d []])) rest with
            | none =>
              rw [hclimb] at hs
              simp only [contRes] at hs
              rw [run_succ_halt f hs]
              simp [runSpec, preorderCursors_mk, preorderSibs_nil, climbFrom, hclimb, cont]
            | some c2 =>
              rw [hclimb] at hs
              simp only [contRes] at hs
              rw [run_succ_next f hs]
              simp [runSpec, preorderCursors_mk, preorderSibs_nil, climbFrom, hclimb, cont]
        | cons c cs2 =>
          intro fr rest f hgood
          have hg2 : goodL (c :: cs2) d [] (fr :: rest) = true := by
            rw [goodT_mk, Bool.and_eq_true] at hgood
            exact hgood.2
          have hsz : sizeL (c :: cs2) ≤ n := by
            simp only [sizeT_mk] at ht; omega
          have hfuel : sizeT (TaskStruct.mk d (c :: cs2)) + f = (sizeL (c :: cs2) + f) + 1 := by
            simp only [sizeT_mk]; omega
          rw [hfuel, run_succ_next _ (show step (TaskStruct.mk d (c :: cs2), fr :: rest)
            = StepRes.next (c, (d, [], cs2) :: fr :: rest) from rfl)]
          rw [ih.2 cs2 c hsz d [] (fr :: rest) f hg2]
          simp [runSpec, preorderCursors_mk, cont]
    refine ⟨hT, ?_⟩
    intro cs
    induction cs with
    | nil =>
      intro c hsz d ls rest f hgood
      have hszc : sizeT c ≤ n + 1 := by simp only [sizeL_cons, sizeL_nil] at hsz; omega
      have hg : goodT c ((d, ls, []) :: rest) = true := by
        rw [goodL_cons, goodL_nil, Bool.and_true] at hgood
        exact hgood
      have hfuel : sizeL [c] + f = sizeT c + f := by
        simp only [sizeL_cons, sizeL_nil]; omega
      rw [hfuel, hT c hszc (d, ls, []) rest f hg]
      simp [runSpec, preorderSibs_cons, preorderSibs_nil, climbFrom]
    | cons c2 cs2 ihl =>
      intro c hsz d ls rest f hgood
      have hszc : sizeT c ≤ n + 1 := by simp only [sizeL_cons] at hsz; omega
      have hsz2 : sizeL (c2 :: cs2) ≤ n + 1 := by
        have h1 : 1 ≤ sizeT c := by
          cases c with
          | mk dc csc => simp only [sizeT_mk]; omega
        simp only [sizeL_cons] at hsz ⊢; omega
      rw [goodL_cons, Bool.and_eq_true] at hgood
      obtain ⟨hg1, hg2⟩ := hgood
      have hfuel : sizeL (c :: c2 :: cs2) + f = sizeT c + (sizeL (c2 :: cs2) + f) := by
        simp only [sizeL_cons]; omega
      rw [hfuel, hT c hszc (d, ls, c2 :: cs2) rest (sizeL (c2 :: cs2) + f) hg1]
      have hS2 := ihl c2 hsz2 d (c :: ls) rest f hg2
      simp only [runSpec, climbFrom, cont] at hS2 ⊢
      rw [hS2]
      simp [preorderSibs_cons, List.append_assoc, List.reverse_cons]

/-- Every non-empty sibling forest satisfies its invariant. -/
theorem sib_all (cs : List TaskStruct) (c : TaskStruct) : SibStmt c cs :=
  (sim_main (sizeL (c :: cs))).2 cs c le_rfl

/-- The walk from the root of a tree whose root has at least one child:
with fuel equal to the number of nodes (plus any extra), it halts normally
having visited exactly the pre-order cursors of the tree. -/
theorem run_root (d : TaskData) (c : TaskStruct) (cs : List TaskStruct) (f : Nat)
    (hgood : goodT (TaskStruct.mk d (c :: cs)) [] = true) :
    run (sizeT (TaskStruct.mk d (c :: cs)) + f) (TaskStruct.mk d (c :: cs), [])
      = (preorderCursors (TaskStruct.mk d (c :: cs)) [], RunStatus.done) := by
  have hg2 : goodL (c :: cs) d [] [] = true := by
    rw [goodT_mk, Bool.and_eq_true] at hgood
    exact hgood.2
  have hfuel : sizeT (TaskStruct.mk d (c :: cs)) + f = (sizeL (c :: cs) + f) + 1 := by
    simp only [sizeT_mk]; omega
  rw [hfuel, run_succ_next _ (show step (TaskStruct.mk d (c :: cs), [])
    = StepRes.next (c, (d, [], cs) :: []) from rfl)]
  rw [sib_all cs c d [] [] f hg2]
  simp [preorderCursors_mk, climbFrom, cont]

/-- The pre-order enumeration of a subtree has exactly one cursor per node. -/
theorem preorder_length : ∀ n : Nat,
    (∀ t, sizeT t ≤ n → ∀ ctx, (preorderCursors t ctx).length = sizeT t) ∧
    (∀ cs : List TaskStruct, sizeL cs ≤ n →
      ∀ d ls ctx, (preorderSibs cs d ls ctx).length = sizeL cs) := by
  intro n
  induction n with
  | zero =>
    constructor
    · intro t h
      exfalso
      cases t with
      | mk d cs => simp only [sizeT_mk] at h; omega
    · intro cs h d ls ctx
      cases cs with
      | nil => simp [preorderSibs_nil, sizeL_nil]
      | cons c cs2 =>
        exfalso
        cases c with
        | mk d2 l2 => simp only [sizeL_cons, sizeT_mk] at h; omega
  | succ n ih =>
    have hT : ∀ t, sizeT t ≤ n + 1 → ∀ ctx, (preorderCursors t ctx).length = sizeT t := by
      intro t ht ctx
      cases t with
      | mk d cs =>
        have hsz : sizeL cs ≤ n := by simp only [sizeT_mk] at ht; omega
        rw [preorderCursors_mk, sizeT_mk]
        simp [ih.2 cs hsz d [] ctx]
        omega
    refine ⟨hT, ?_⟩
    intro cs
    induction cs with
    | nil =>
      intro _ d ls ctx
      simp [preorderSibs_nil, sizeL_nil]
    | cons c cs2 ihl =>
      intro hsz d ls ctx
      have hszc : sizeT c ≤ n + 1 := by simp only [sizeL_cons] at hsz; omega
      have hsz2 : sizeL cs2 ≤ n + 1 := by
        have h1 : 1 ≤ sizeT c := by
          cases c with
          | mk dc csc => simp only [sizeT_mk]; omega
        simp only [sizeL_cons] at hsz; omega
      rw [preorderSibs_cons, sizeL_cons, List.length_append,
        hT c hszc ((d, ls, cs2) :: ctx), ihl hsz2 d (c :: ls) ctx]

/-- Packaged form of `preorder_length` for a whole tree. -/
theorem preorderCursors_length (t : TaskStruct) (ctx : Ctx) :
    (preorderCursors t ctx).length = sizeT t :=
  (preorder_length (sizeT t)).1 t le_rfl ctx

/-! ### The store/count loop in terms of the visited cursors -/

/-- The loop of `dfs_add` described through `run`: it returns normally
exactly when the walk halts, the buffer holds the records of the visited
cursors truncated to the remaining slots, and the iteration count is the
number of visits. -/
theorem dfsLoop_run : ∀ fuel : Nat, ∀ c : Cursor, ∀ it knr : Nat, ∀ buf : List Prinfo,
    dfsLoop fuel c it knr buf =
      (match run fuel c with
       | (l, RunStatus.done) =>
           some (buf ++ ((l.map store_node).take (knr - it)), it + l.length)
       | (_, RunStatus.fuelOut) => none
       | (_, RunStatus.crashed) => none) := by
  intro fuel
  induction fuel with
  | zero => intro c it knr buf; rfl
  | succ fuel ihf =>
    intro c it knr buf
    cases hs : step c with
    | halt =>
      rw [run_succ_halt fuel hs]
      simp only [dfsLoop, hs]
      rcases Nat.lt_or_ge it knr with hlt | hge
      · obtain ⟨m, hm⟩ : ∃ m, knr - it = m + 1 := ⟨knr - it - 1, by omega⟩
        simp [hlt, hm]
      · have h1 : knr - it = 0 := by omega
        simp [Nat.not_lt.2 hge, h1]
    | crash =>
      rw [run_succ_crash fuel hs]
      simp only [dfsLoop, hs]
    | next c2 =>
      rw [run_succ_next fuel hs]
      simp only [dfsLoop, hs]
      rw [ihf c2 (it + 1) knr]
      cases hr : run fuel c2 with
      | mk l s =>
        cases s with
        | done =>
          simp only []
          rcases Nat.lt_or_ge it knr with hlt | hge
          · obtain ⟨m, hm1, hm2⟩ : ∃ m, knr - it = m + 1 ∧ knr - (it + 1) = m :=
              ⟨knr - (it + 1), by omega, rfl⟩
            simp [hlt, hm1, hm2, List.append_assoc]
            omega
          · have h1 : knr - it = 0 := by omega
            have h2 : knr - (it + 1) = 0 := by omega
            simp [Nat.not_lt.2 hge, h1, h2]
            omega
        | fuelOut => simp
        | crashed => simp

/-- `dfs_add` described through `run`. -/
theorem dfs_add_run (fuel : Nat) (t : TaskStruct) (knr : Nat) :
    dfs_add fuel t knr =
      (match run fuel (t, []) with
       | (l, RunStatus.done) =>
           some ((l.map store_node).take knr,
                 if l.length < knr then l.length else knr, l.length)
       | (_, RunStatus.fuelOut) => none
       | (_, RunStatus.crashed) => none) := by
  rw [dfs_add, dfsLoop_run fuel (t, []) 0 knr []]
  cases hr : run fuel (t, []) with
  | mk l s =>
    cases s with
    | done => simp
    | fuelOut => simp
    | crashed => simp

/-! ### Positions along a run -/

/-- The first cursor visited by a non-empty run is the starting cursor. -/
theorem run_head (fuel : Nat) (c : Cursor) (hne : (run fuel c).1 ≠ []) :
    (run fuel c).1.getD 0 default = c := by
  cases fuel with
  | zero => simp [run_zero] at hne
  | succ fuel =>
    cases hs : step c with
    | halt => rw [run_succ_halt fuel hs]; simp
    | crash => rw [run_succ_crash fuel hs]; simp
    | next c2 => rw [run_succ_next fuel hs]; simp

/-- A normally halted run visited at least one cursor. -/
theorem run_done_ne_nil (fuel : Nat) (c : Cursor)
    (h : (run fuel c).2 = RunStatus.done) : (run fuel c).1 ≠ [] := by
  cases fuel with
  | zero => simp [run_zero] at h
  | succ fuel =>
    cases hs : step c with
    | halt => rw [run_succ_halt fuel hs]; simp
    | crash => rw [run_succ_crash fuel hs] at h; simp at h
    | next c2 => rw [run_succ_next fuel hs]; simp

/-- Consecutive cursors of a run are related by `step`. -/
theorem run_chain : ∀ fuel : Nat, ∀ c : Cursor, ∀ i : Nat,
    i + 1 < (run fuel c).1.length →
    step ((run fuel c).1.getD i default)
      = StepRes.next ((run fuel c).1.getD (i + 1) default) := by
  intro fuel
  induction fuel with
  | zero => intro c i hi; simp [run_zero] at hi
  | succ fuel ihf =>
    intro c i hi
    cases hs : step c with
    | halt => rw [run_succ_halt fuel hs] at hi; simp at hi
    | crash => rw [run_succ_crash fuel hs] at hi; simp at hi
    | next c2 =>
      rw [run_succ_next fuel hs] at hi ⊢
      cases i with
      | zero =>
        have hne : (run fuel c2).1 ≠ [] := by
          simp only [List.length_cons] at hi
          exact List.length_pos.mp (by omega)
        simp only [List.getD_cons_zero, List.getD_cons_succ]
        rw [hs, run_head fuel c2 hne]
      | succ i =>
        simp only [List.getD_cons_succ]
        apply ihf c2 i
        simp only [List.length_cons] at hi
        omega

/-- The step out of the last cursor of a normally halted run is the break. -/
theorem run_done_last : ∀ fuel : Nat, ∀ c : Cursor,
    (run fuel c).2 = RunStatus.done →
    step ((run fuel c).1.getD ((run fuel c).1.length - 1) default) = StepRes.halt := by
  intro fuel
  induction fuel with
  | zero => intro c h; simp [run_zero] at h
  | succ fuel ihf =>
    intro c h
    cases hs : step c with
    | halt =>
      rw [run_succ_halt fuel hs]
      simpa using hs
    | crash => rw [run_succ_crash fuel hs] at h; simp at h
    | next c2 =>
      rw [run_succ_next fuel hs] at h ⊢
      simp only at h
      have hne := run_done_ne_nil fuel c2 h
      obtain ⟨m, hm⟩ : ∃ m, (run fuel c2).1.length = m + 1 := by
        cases hl : (run fuel c2).1 with
        | nil => exact absurd hl hne
        | cons a l => exact ⟨l.length, by simp [hl]⟩
      have hlast := ihf c2 h
      rw [hm] at hlast
      simp only [List.length_cons, hm]
      rw [show m + 1 + 1 - 1 = m + 1 by omega, List.getD_cons_succ]
      rw [show m + 1 - 1 = m by omega] at hlast
      exact hlast

/-- The pid stored for a cursor is the pid of the task at the cursor. -/
theorem store_node_pid (c : Cursor) : (store_node c).pid = c.1.data.pid := by
  obtain ⟨t, ctx⟩ := c
  cases t with
  | mk d cs => rfl

/-! ### dfs_add and sys_ptree on good trees -/

/-- `dfs_add` with fuel = node count, on a crash-free tree whose root has a
child: the buffer receives the first `knr` pre-order records, `*knr` becomes
the number stored, and the return value is the node count. -/
theorem dfs_add_good (d : TaskData) (c : TaskStruct) (cs : List TaskStruct) (knr : Nat)
    (hgood : goodT (TaskStruct.mk d (c :: cs)) [] = true) :
    dfs_add (sizeT (TaskStruct.mk d (c :: cs))) (TaskStruct.mk d (c :: cs)) knr
      = some (((preorderCursors (TaskStruct.mk d (c :: cs)) []).map store_node).take knr,
              if sizeT (TaskStruct.mk d (c :: cs)) < knr
                then sizeT (TaskStruct.mk d (c :: cs)) else knr,
              sizeT (TaskStruct.mk d (c :: cs))) := by
  have hr := run_root d c cs 0 hgood
  rw [Nat.add_zero] at hr
  rw [dfs_add_run, hr]
  simp [preorderCursors_length]

/-- `sys_ptree` under a clean environment with a valid capacity, expressed
through `dfs_add`. -/
theorem sys_ptree_clean (capacity : Int) (t : TaskStruct) (fuel : Nat)
    (hc : 1 ≤ capacity) :
    sys_ptree (cleanEnv capacity) t fuel =
      (match dfs_add fuel t (MIN ((sizeT t : Int) + EXTRA_SLOTS) capacity).toNat with
       | none =>
           ⟨none, none, none, some (MIN ((sizeT t : Int) + EXTRA_SLOTS) capacity)⟩
       | some (kbuf, knr2, iterations) =>
           ⟨some ((iterations : Nat) : Int), some ((knr2 : Nat) : Int), some kbuf,
            some (MIN ((sizeT t : Int) + EXTRA_SLOTS) capacity)⟩) := by
  have h1 : ¬ (capacity < 1) := by omega
  have h2 : ¬ (((0 : Nat) : Int) < 0) := by omega
  simp only [sys_ptree, cleanEnv, kslotsOf, Bool.or_self, Bool.false_eq_true, if_false,
    h1, h2]

/-- `sys_ptree` with a NULL buffer or count pointer. -/
theorem sys_ptree_null (env : SysEnv) (t : TaskStruct) (fuel : Nat)
    (h : (env.bufNull || env.nrNull) = true) :
    sys_ptree env t fuel = ⟨some (-EINVAL), none, none, none⟩ := by
  unfold sys_ptree
  rw [if_pos h]

/-- `sys_ptree` when `get_user` faults. -/
theorem sys_ptree_getuser (env : SysEnv) (t : TaskStruct) (fuel : Nat)
    (h1 : ¬ (env.bufNull || env.nrNull) = true) (h2 : env.getUserFault = true) :
    sys_ptree env t fuel = ⟨some (-EFAULT), none, none, none⟩ := by
  unfold sys_ptree
  rw [if_neg h1, if_pos h2]

/-- `sys_ptree` with a capacity below 1. -/
theorem sys_ptree_badnr (env : SysEnv) (t : TaskStruct) (fuel : Nat)
    (h1 : ¬ (env.bufNull || env.nrNull) = true) (h2 : ¬ env.getUserFault = true)
    (h3 : env.nrIn < 1) :
    sys_ptree env t fuel = ⟨some (-EINVAL), none, none, none⟩ := by
  unfold sys_ptree
  rw [if_neg h1, if_neg h2, if_pos h3]

/-- `sys_ptree` when the buffer allocation fails. -/
theorem sys_ptree_nomem (env : SysEnv) (t : TaskStruct) (fuel : Nat)
    (h1 : ¬ (env.bufNull || env.nrNull) = true) (h2 : ¬ env.getUserFault = true)
    (h3 : ¬ env.nrIn < 1) (h4 : env.allocFault = true) :
    sys_ptree env t fuel = ⟨some (-ENOMEM), none, none, none⟩ := by
  unfold sys_ptree
  rw [if_neg h1, if_neg h2, if_neg h3, if_pos h4]

/-- `sys_ptree` past all argument checks and the allocation. -/
theorem sys_ptree_walk (env : SysEnv) (t : TaskStruct) (fuel : Nat)
    (h1 : ¬ (env.bufNull || env.nrNull) = true) (h2 : ¬ env.getUserFault = true)
    (h3 : ¬ env.nrIn < 1) (h4 : ¬ env.allocFault = true) :
    sys_ptree env t fuel =
      (match dfs_add fuel t (kslotsOf env t).toNat with
       | none => ⟨none, none, none, some (kslotsOf env t)⟩
       | some (kbuf, knr2, iterations) =>
         if ((env.copyFailBytes : Nat) : Int) < 0 then
           ⟨some (-EFAULT), none, some kbuf, some (kslotsOf env t)⟩
         else if env.putUserFault then
           ⟨some (-EFAULT), none, some kbuf, some (kslotsOf env t)⟩
         else
           ⟨some ((iterations : Nat) : Int), some ((knr2 : Nat) : Int),
            some kbuf, some (kslotsOf env t)⟩) := by
  unfold sys_ptree
  rw [if_neg h1, if_neg h2, if_neg h3, if_neg h4]

/-- Lower bound for the MIN macro. -/
theorem MIN_ge (a b n : Int) (h1 : n ≤ a) (h2 : n ≤ b) : n ≤ MIN a b := by
  simp only [MIN]; split_ifs <;> omega

/-- The MIN macro is bounded by its right argument. -/
theorem MIN_le_right (a b : Int) : MIN a b ≤ b := by
  simp only [MIN]; split_ifs <;> omega

/-! ### Claims -/

/-- C1, corrected.  The claim as stated is false (`claim_C1_cex`): the
record captured for a node with at least two children stores in
`first_child_pid` the pid of the LAST child of the sibling chain
(`get_youngest_child_pid` reads `children.prev`), while the walker descends
to the FIRST child of the chain (`list_first_entry`).  Amended statement,
proved here: along any normally completed walk, the record of a visited node
with children stores the pid of the node's last child, and the next node
emitted after it (the walk descends immediately) is the node's first child;
the two coincide exactly when the node has a single child. -/
theorem claim_C1 (fuel : Nat) (c0 : Cursor)
    (hdone : (run fuel c0).2 = RunStatus.done)
    (i : Nat) (hi : i < (run fuel c0).1.length)
    (d : TaskData) (c : TaskStruct) (cs : List TaskStruct) (ctx : Ctx)
    (hnode : (run fuel c0).1.getD i default = (TaskStruct.mk d (c :: cs), ctx)) :
    (store_node ((run fuel c0).1.getD i default)).first_child_pid
        = ((c :: cs).getLast (List.cons_ne_nil c cs)).data.pid
    ∧ i + 1 < (run fuel c0).1.length
    ∧ (store_node ((run fuel c0).1.getD (i + 1) default)).pid = c.data.pid := by
  have hstep : step ((run fuel c0).1.getD i default)
      = StepRes.next (c, (d, [], cs) :: ctx) := by
    rw [hnode]; rfl
  have hlt : i + 1 < (run fuel c0).1.length := by
    by_contra hcon
    have hieq : i = (run fuel c0).1.length - 1 := by omega
    have hlast := run_done_last fuel c0 hdone
    rw [← hieq, hstep] at hlast
    exact StepRes.noConfusion hlast
  refine ⟨?_, hlt, ?_⟩
  · rw [hnode]
    simp [store_node, List.getLast?_eq_getLast_of_ne_nil (List.cons_ne_nil c cs)]
  · have hch := run_chain fuel c0 i hlt
    rw [hstep] at hch
    injection hch with h2
    rw [← h2, store_node_pid]

/-- Witness for C1 at the two-child tree 1(2, 3): the root's record stores
first child pid 3 while the node visited next has pid 2. -/
theorem claim_C1_witness :
    (store_node ((run 3 (twoKidsT, [])).1.getD 0 default)).first_child_pid
        = ((tX :: [tY]).getLast (List.cons_ne_nil tX [tY])).data.pid
    ∧ 0 + 1 < (run 3 (twoKidsT, [])).1.length
    ∧ (store_node ((run 3 (twoKidsT, [])).1.getD (0 + 1) default)).pid = tX.data.pid :=
  claim_C1 3 (twoKidsT, []) rfl 0 (by decide) ⟨1, 0, 0, "init"⟩ tX [tY] [] rfl

/-- Counterexample to C1 as stated: on the tree 1(2, 3) the walk completes
and emits pids 1, 2, 3, but the root's record has `first_child_pid` 3 — the
last child — while the node emitted right after the root has pid 2, so the
recorded eldest-child field does not equal the pid of the child visited
first. -/
theorem claim_C1_cex :
    (run 3 (twoKidsT, [])).2 = RunStatus.done
    ∧ ((run 3 (twoKidsT, [])).1.map store_node).map Prinfo.pid = [1, 2, 3]
    ∧ ((run 3 (twoKidsT, [])).1.map store_node).map Prinfo.first_child_pid = [3, 0, 0]
    ∧ (store_node ((run 3 (twoKidsT, [])).1.getD 0 default)).first_child_pid
        ≠ (store_node ((run 3 (twoKidsT, [])).1.getD 1 default)).pid :=
  ⟨rfl, rfl, rfl, by decide⟩

/-- C2, corrected.  The claim as stated is false: on the single-node tree
(a static tree with `capacity ≥ node_count`) the walk never terminates
(`claim_C2_cex`), because the childless root's self-looped sibling link
sends the walker back to the root forever.  Amended statement, proved here:
for every static tree whose root has at least one child and whose walk never
climbs through two consecutive non-root last children (`goodT`), a call with
`capacity ≥ node_count` returns the node count, writes the node count to
`*nr`, and copies exactly the `node_count` records of the DFS pre-order
enumeration, one per node. -/
theorem claim_C2 (d : TaskData) (c : TaskStruct) (cs : List TaskStruct) (capacity : Int)
    (hgood : goodT (TaskStruct.mk d (c :: cs)) [] = true)
    (hcap : (sizeT (TaskStruct.mk d (c :: cs)) : Int) ≤ capacity) :
    sys_ptree (cleanEnv capacity) (TaskStruct.mk d (c :: cs))
        (sizeT (TaskStruct.mk d (c :: cs)))
      = ⟨some ((sizeT (TaskStruct.mk d (c :: cs)) : Int)),
         some ((sizeT (TaskStruct.mk d (c :: cs)) : Int)),
         some ((preorderCursors (TaskStruct.mk d (c :: cs)) []).map store_node),
         some (MIN ((sizeT (TaskStruct.mk d (c :: cs)) : Int) + EXTRA_SLOTS) capacity)⟩
    ∧ ((preorderCursors (TaskStruct.mk d (c :: cs)) []).map store_node).length
        = sizeT (TaskStruct.mk d (c :: cs)) := by
  have hn1 : 1 ≤ sizeT (TaskStruct.mk d (c :: cs)) := by rw [sizeT_mk]; omega
  have hc1 : (1 : Int) ≤ capacity := by
    have : ((1 : Nat) : Int) ≤ (sizeT (TaskStruct.mk d (c :: cs)) : Int) := by
      exact_mod_cast hn1
    omega
  have hks : (sizeT (TaskStruct.mk d (c :: cs)) : Int)
      ≤ MIN ((sizeT (TaskStruct.mk d (c :: cs)) : Int) + EXTRA_SLOTS) capacity :=
    MIN_ge _ _ _ (by simp only [EXTRA_SLOTS]; omega) hcap
  have hktn : sizeT (TaskStruct.mk d (c :: cs))
      ≤ (MIN ((sizeT (TaskStruct.mk d (c :: cs)) : Int) + EXTRA_SLOTS) capacity).toNat := by
    have := Int.toNat_le_toNat hks
    rwa [Int.toNat_natCast] at this
  rw [sys_ptree_clean capacity _ _ hc1,
    dfs_add_good d c cs _ hgood]
  have hlen : ((preorderCursors (TaskStruct.mk d (c :: cs)) []).map store_node).length
      = sizeT (TaskStruct.mk d (c :: cs)) := by
    rw [List.length_map, preorderCursors_length]
  have htake : ((preorderCursors (TaskStruct.mk d (c :: cs)) []).map store_node).take
      (MIN ((sizeT (TaskStruct.mk d (c :: cs)) : Int) + EXTRA_SLOTS) capacity).toNat
      = (preorderCursors (TaskStruct.mk d (c :: cs)) []).map store_node :=
    List.take_of_length_le (by rw [hlen]; exact hktn)
  have hif : (if sizeT (TaskStruct.mk d (c :: cs))
        < (MIN ((sizeT (TaskStruct.mk d (c :: cs)) : Int) + EXTRA_SLOTS) capacity).toNat
      then sizeT (TaskStruct.mk d (c :: cs))
      else (MIN ((sizeT (TaskStruct.mk d (c :: cs)) : Int) + EXTRA_SLOTS) capacity).toNat)
      = sizeT (TaskStruct.mk d (c :: cs)) := by
    split_ifs with h <;> omega
  rw [htake, hif]
  exact ⟨rfl, hlen⟩

/-- Witness for C2 at the spec's concrete scenario R(A(C), B) with
capacity 10: the call returns 4, writes 4 records in order R, A, C, B. -/
theorem claim_C2_witness :
    (sys_ptree (cleanEnv 10) racbT (sizeT racbT)
      = ⟨some ((sizeT racbT : Int)), some ((sizeT racbT : Int)),
         some ((preorderCursors racbT []).map store_node),
         some (MIN ((sizeT racbT : Int) + EXTRA_SLOTS) 10)⟩
    ∧ ((preorderCursors racbT []).map store_node).length = sizeT racbT)
    ∧ ((preorderCursors racbT []).map store_node).map Prinfo.pid = [1, 2, 4, 3]
    ∧ sizeT racbT = 4 :=
  ⟨claim_C2 ⟨1, 0, 0, "init"⟩ tA [tB] 10 rfl (by decide), rfl, rfl⟩

/-- Counterexample to C2 as stated: a static single-node tree, capacity 10
(at least the node count 1).  The step relation moves from the root back to
the root, the walk is still running after 5 iterations, and the call does
not return: the model yields no return value, no records and no count,
instead of 1 record and total 1. -/
theorem claim_C2_cex :
    step (singleT, []) = StepRes.next (singleT, [])
    ∧ run 5 (singleT, []) = (List.replicate 5 (singleT, []), RunStatus.fuelOut)
    ∧ sizeT singleT = 1
    ∧ sys_ptree (cleanEnv 10) singleT 5 = ⟨none, none, none, some 10⟩ :=
  ⟨rfl, rfl, rfl, rfl⟩

/-- C3, corrected.  The claim as stated is false: on a tree where a climb
must ascend past two consecutive non-root last children, the walk of
`snapshot(k)` (and of `snapshot(node_count)`) dereferences a non-task
pointer and never returns records (`claim_C3_cex`).  Amended statement,
proved here: for every static tree whose walk is crash-free (`goodT`) and
every capacity `k` with `1 ≤ k < node_count`, the records copied by
`snapshot(k)` are exactly the first `k` records, in order, of the
`node_count` records copied by `snapshot(node_count)`. -/
theorem claim_C3 (t : TaskStruct) (k : Nat)
    (hgood : goodT t [] = true) (hk1 : 1 ≤ k) (hk2 : k < sizeT t) :
    ∃ full : List Prinfo,
      (sys_ptree (cleanEnv ((sizeT t : Int))) t (sizeT t)).copied = some full
      ∧ full.length = sizeT t
      ∧ (sys_ptree (cleanEnv ((k : Nat) : Int)) t (sizeT t)).copied
          = some (full.take k) := by
  cases t with
  | mk d cs =>
    cases cs with
    | nil =>
      exfalso
      rw [sizeT_mk, sizeL_nil] at hk2
      omega
    | cons c cs2 =>
      have hn1 : 1 ≤ sizeT (TaskStruct.mk d (c :: cs2)) := by rw [sizeT_mk]; omega
      have hklt : ((k : Nat) : Int) < (sizeT (TaskStruct.mk d (c :: cs2)) : Int) := by
        exact_mod_cast hk2
      have hlen : ((preorderCursors (TaskStruct.mk d (c :: cs2)) []).map store_node).length
          = sizeT (TaskStruct.mk d (c :: cs2)) := by
        rw [List.length_map, preorderCursors_length]
      refine ⟨(preorderCursors (TaskStruct.mk d (c :: cs2)) []).map store_node,
        ?_, hlen, ?_⟩
      · have hminA : MIN ((sizeT (TaskStruct.mk d (c :: cs2)) : Int) + EXTRA_SLOTS)
            ((sizeT (TaskStruct.mk d (c :: cs2)) : Int))
            = ((sizeT (TaskStruct.mk d (c :: cs2)) : Int)) := by
          simp only [MIN, EXTRA_SLOTS]; split_ifs <;> omega
        rw [sys_ptree_clean _ _ _ (by exact_mod_cast hn1), hminA, Int.toNat_natCast,
          dfs_add_good d c cs2 _ hgood]
        simp only []
        rw [List.take_of_length_le hlen.le]
      · have hminB : MIN ((sizeT (TaskStruct.mk d (c :: cs2)) : Int) + EXTRA_SLOTS)
            ((k : Nat) : Int) = ((k : Nat) : Int) := by
          simp only [MIN, EXTRA_SLOTS]; split_ifs <;> omega
        rw [sys_ptree_clean _ _ _ (by exact_mod_cast hk1), hminB, Int.toNat_natCast,
          dfs_add_good d c cs2 _ hgood]

/-- Witness for C3 at R(A(C), B) with k = 2: snapshot(2) copies the first
two of the four records of snapshot(4). -/
theorem claim_C3_witness :
    ∃ full : List Prinfo,
      (sys_ptree (cleanEnv ((sizeT racbT : Int))) racbT (sizeT racbT)).copied = some full
      ∧ full.length = sizeT racbT
      ∧ (sys_ptree (cleanEnv (((2 : Nat) : Nat) : Int)) racbT (sizeT racbT)).copied
          = some (full.take 2) :=
  claim_C3 racbT 2 rfl (by decide) (by decide)

/-- Counterexample to C3 as stated: the depth-3 chain 1(2(3(4))) is a static
tree with node_count 4; for k = 2 (and likewise for capacity 4) the walk
dereferences a garbage pointer after visiting node 4 — the climb loop's
cached list head is stale — so neither call returns any records, let alone a
prefix relation between them. -/
theorem claim_C3_cex :
    sizeT chain4T = 4
    ∧ sys_ptree (cleanEnv 4) chain4T 9 = ⟨none, none, none, some 4⟩
    ∧ sys_ptree (cleanEnv 2) chain4T 9 = ⟨none, none, none, some 2⟩
    ∧ (run 9 (chain4T, [])).2 = RunStatus.crashed :=
  ⟨rfl, rfl, rfl, rfl⟩

/-- C4, corrected.  The claim as stated is false: on the single-node static
tree the call never returns at all (`claim_C4_cex`), and on crash-prone
trees it dereferences garbage.  Amended statement, proved here: for every
static tree whose root has at least one child and whose walk is crash-free,
and every capacity ≥ 1, the returned total is the number of nodes in the
tree, independent of the capacity and of buffer exhaustion. -/
theorem claim_C4 (d : TaskData) (c : TaskStruct) (cs : List TaskStruct) (capacity : Int)
    (hgood : goodT (TaskStruct.mk d (c :: cs)) [] = true)
    (hcap : 1 ≤ capacity) :
    (sys_ptree (cleanEnv capacity) (TaskStruct.mk d (c :: cs))
        (sizeT (TaskStruct.mk d (c :: cs)))).ret
      = some ((sizeT (TaskStruct.mk d (c :: cs)) : Int)) := by
  rw [sys_ptree_clean _ _ _ hcap, dfs_add_good d c cs _ hgood]

/-- Witness for C4 at R(A(C), B) with capacity 1 — the buffer is exhausted
after one record, yet the returned total is the full node count 4. -/
theorem claim_C4_witness :
    (sys_ptree (cleanEnv 1) racbT (sizeT racbT)).ret = some ((sizeT racbT : Int)) :=
  claim_C4 ⟨1, 0, 0, "init"⟩ tA [tB] 1 rfl (by omega)

/-- Counterexample to C4 as stated: the single-node static tree with
capacity 1 ≥ 1.  The walk never terminates, so no total is ever returned —
the model yields no return value where the claim demands the node count 1. -/
theorem claim_C4_cex :
    sys_ptree (cleanEnv 1) singleT 7 = ⟨none, none, none, some 1⟩
    ∧ (run 7 (singleT, [])).2 = RunStatus.fuelOut
    ∧ sizeT singleT = 1 :=
  ⟨rfl, rfl, rfl⟩

/-- Environment for C5: valid pointers, capacity 10, but `copy_to_user`
fails, leaving 7 bytes uncopied. -/
def copyFailEnv : SysEnv := ⟨false, false, false, 10, false, 7, false⟩

/-- C5 is a code bug.  The spec requires: if copying the records back to the
caller fails, `sys_ptree` returns -EFAULT.  The code tests `rval < 0`
(ptree.c line 195), but `copy_to_user` returns the number of bytes it could
not copy — a non-negative count — so the test never fires.  Evaluated at the
failing input (tree R(A(C), B), capacity 10, `copy_to_user` leaving 7 bytes
uncopied): the call returns the process count 4 and even writes the record
count through `put_user`, instead of returning -EFAULT. -/
theorem claim_C5 :
    copyFailEnv.copyFailBytes = 7
    ∧ sys_ptree copyFailEnv racbT 4
        = ⟨some 4, some 4, some ((preorderCursors racbT []).map store_node), some 10⟩
    ∧ (sys_ptree copyFailEnv racbT 4).ret ≠ some (-EFAULT) :=
  ⟨rfl, rfl, by decide⟩

/-- C6, confirmed.  For every call (any environment, any tree, any fuel)
that succeeds — a count was written back through `nr` — that count equals
the number of record slots written, and is at most MIN(capacity,
total_visited): the walker stores a record only while fewer than the
allocated slot count have been stored, and the reported count is clamped to
the number visited. -/
theorem claim_C6 (env : SysEnv) (t : TaskStruct) (fuel : Nat) (m : Int)
    (hm : (sys_ptree env t fuel).nrOut = some m) :
    ∃ r : Int, (sys_ptree env t fuel).ret = some r
      ∧ m ≤ MIN env.nrIn r
      ∧ ∃ recs : List Prinfo, (sys_ptree env t fuel).copied = some recs
          ∧ (recs.length : Int) = m := by
  by_cases h1 : (env.bufNull || env.nrNull) = true
  · rw [sys_ptree_null env t fuel h1] at hm; simp at hm
  by_cases h2 : env.getUserFault = true
  · rw [sys_ptree_getuser env t fuel h1 h2] at hm; simp at hm
  by_cases h3 : env.nrIn < 1
  · rw [sys_ptree_badnr env t fuel h1 h2 h3] at hm; simp at hm
  by_cases h4 : env.allocFault = true
  · rw [sys_ptree_nomem env t fuel h1 h2 h3 h4] at hm; simp at hm
  rw [sys_ptree_walk env t fuel h1 h2 h3 h4] at hm ⊢
  have hcf : ¬ (((env.copyFailBytes : Nat) : Int) < 0) := by
    have := Int.natCast_nonneg env.copyFailBytes
    omega
  cases hd : dfs_add fuel t (kslotsOf env t).toNat with
  | none => rw [hd] at hm; simp at hm
  | some triple =>
    obtain ⟨kbuf, knr2, iterations⟩ := triple
    rw [hd] at hm
    by_cases hpf : env.putUserFault = true
    · simp [hcf, hpf] at hm
    · simp only [if_neg hcf, hpf, Bool.false_eq_true, if_false,
        Option.some.injEq] at hm ⊢
      refine ⟨(iterations : Int), rfl, ?_, kbuf, rfl, ?_⟩
      · rw [dfs_add_run] at hd
        cases hrun : run fuel (t, []) with
        | mk l s =>
          rw [hrun] at hd
          cases s with
          | fuelOut => simp at hd
          | crashed => simp at hd
          | done =>
            simp only [Option.some.injEq, Prod.mk.injEq] at hd
            obtain ⟨hkb, hknr, hit⟩ := hd
            have hknr2 : knr2 = min l.length (kslotsOf env t).toNat := by
              rw [← hknr]; split_ifs <;> omega
            have h0k : 0 ≤ kslotsOf env t := by
              rw [kslotsOf]
              exact MIN_ge _ _ 0 (by simp only [EXTRA_SLOTS]; omega) (by omega)
            have hcast : (((kslotsOf env t).toNat : Nat) : Int) = kslotsOf env t :=
              Int.toNat_of_nonneg h0k
            have hkle : kslotsOf env t ≤ env.nrIn := by
              rw [kslotsOf]; exact MIN_le_right _ _
            have hle1 : (knr2 : Int) ≤ env.nrIn := by
              have h6 : knr2 ≤ (kslotsOf env t).toNat := by omega
              have h5 : ((knr2 : Nat) : Int) ≤ (((kslotsOf env t).toNat : Nat) : Int) := by
                exact_mod_cast h6
              omega
            have hle2 : (knr2 : Int) ≤ (iterations : Int) := by
              have h6 : knr2 ≤ iterations := by omega
              exact_mod_cast h6
            rw [← hm]
            exact MIN_ge _ _ _ hle1 hle2
      · rw [dfs_add_run] at hd
        cases hrun : run fuel (t, []) with
        | mk l s =>
          rw [hrun] at hd
          cases s with
          | fuelOut => simp at hd
          | crashed => simp at hd
          | done =>
            simp only [Option.some.injEq, Prod.mk.injEq] at hd
            obtain ⟨hkb, hknr, hit⟩ := hd
            have hlen : kbuf.length = knr2 := by
              rw [← hkb, List.length_take, List.length_map, ← hknr]
              split_ifs <;> omega
            rw [hlen, hm]

/-- Witness for C6: a clean call on R(A(C), B) with capacity 2 writes back
count 2, which is at most MIN(2, 4), and copies exactly 2 records. -/
theorem claim_C6_witness :
    ∃ r : Int, (sys_ptree (cleanEnv 2) racbT 4).ret = some r
      ∧ (2 : Int) ≤ MIN (cleanEnv 2).nrIn r
      ∧ ∃ recs : List Prinfo, (sys_ptree (cleanEnv 2) racbT 4).copied = some recs
          ∧ (recs.length : Int) = 2 :=
  claim_C6 (cleanEnv 2) racbT 4 2 rfl

/-- C7, confirmed.  Whenever `sys_ptree` gets past its argument checks and
the allocation succeeds, the allocated buffer has exactly
MIN(nproc + EXTRA_SLOTS, capacity) slots, with nproc the probed process
count and EXTRA_SLOTS = 15. -/
theorem claim_C7 (env : SysEnv) (t : TaskStruct) (fuel : Nat)
    (h1 : env.bufNull = false) (h2 : env.nrNull = false)
    (h3 : env.getUserFault = false) (h4 : 1 ≤ env.nrIn)
    (h5 : env.allocFault = false) :
    (sys_ptree env t fuel).allocSlots
      = some (MIN ((sizeT t : Int) + EXTRA_SLOTS) env.nrIn) := by
  have h6 : ¬ (env.nrIn < 1) := by omega
  unfold sys_ptree
  simp only [h1, h2, h3, h5, Bool.or_self, Bool.false_eq_true, if_false, h6]
  cases hd : dfs_add fuel t (kslotsOf env t).toNat with
  | none => rfl
  | some triple =>
    obtain ⟨kbuf, knr2, iterations⟩ := triple
    by_cases hcf : ((env.copyFailBytes : Nat) : Int) < 0
    · simp [hcf, kslotsOf]
    · by_cases hpf : env.putUserFault = true
      · simp [hcf, hpf, kslotsOf]
      · simp [hcf, hpf, kslotsOf]

/-- Witness for C7: capacity 5 on the 4-node tree gives a buffer of
MIN(4 + 15, 5) = 5 slots, even with zero fuel (allocation happens before
the walk). -/
theorem claim_C7_witness :
    (sys_ptree (cleanEnv 5) racbT 0).allocSlots
      = some (MIN ((sizeT racbT : Int) + EXTRA_SLOTS) 5) :=
  claim_C7 (cleanEnv 5) racbT 0 rfl rfl rfl (by decide) rfl

/-- C8, confirmed.  A NULL record buffer, a NULL count pointer, or a
capacity below 1 (read successfully by `get_user`) makes `sys_ptree` fail
with -EINVAL before any allocation, walk, copy, or count write-back. -/
theorem claim_C8 (env : SysEnv) (t : TaskStruct) (fuel : Nat)
    (h : env.bufNull = true ∨ env.nrNull = true
        ∨ (env.getUserFault = false ∧ env.nrIn < 1)) :
    sys_ptree env t fuel = ⟨some (-EINVAL), none, none, none⟩ := by
  unfold sys_ptree
  rcases h with h | h | ⟨hg, hlt⟩
  · simp [h]
  · simp [h]
  · cases hb : env.bufNull <;> cases hn : env.nrNull <;> simp [hb, hn, hg, hlt]

/-- Witness for C8: `snapshot(0)` — capacity 0 with valid pointers — fails
with -EINVAL and produces nothing. -/
theorem claim_C8_witness :
    sys_ptree (cleanEnv 0) singleT 3 = ⟨some (-EINVAL), none, none, none⟩ :=
  claim_C8 (cleanEnv 0) singleT 3 (Or.inr (Or.inr ⟨rfl, by decide⟩))

/-- C9 is a code bug.  The claim — the non-recursive DFS walk terminates on
every finite tree, visiting each node exactly once, in at most node-count
iterations — is what the comment above the climb loop intends, but the code
fails it twice over.  (1) Single-node tree: the childless root's self-looped
sibling link sends the walker from the root back to the root; after 9
iterations it has emitted the root 9 times and is still running.  (2) The
depth-3 chain 1(2(3(4))): climbing back from node 4 must pop three
ancestors, but the climb loop's cached `list` head goes stale after the
first pop, the loop exits early, and `list_first_entry(&cur->sibling)`
resolves to `container_of(&parent->children)` — not a task — so the walk
ends in undefined behaviour after visiting 4 nodes. -/
theorem claim_C9 :
    sizeT singleT = 1
    ∧ (run 9 (singleT, [])).2 = RunStatus.fuelOut
    ∧ ((run 9 (singleT, [])).1.map (fun x => (store_node x).pid))
        = [1, 1, 1, 1, 1, 1, 1, 1, 1]
    ∧ sizeT chain4T = 4
    ∧ (run 9 (chain4T, [])).2 = RunStatus.crashed
    ∧ ((run 9 (chain4T, [])).1.map (fun x => (store_node x).pid)) = [1, 2, 3, 4] :=
  ⟨rfl, rfl, rfl, rfl, rfl, rfl⟩

/-- C10, confirmed.  Whenever `sys_ptree` returns a negative error code, the
caller's count location was never written: every error exit happens either
before `put_user` is reached or because `put_user` itself faulted without
writing, so the caller-visible count is unchanged. -/
theorem claim_C10 (env : SysEnv) (t : TaskStruct) (fuel : Nat) (r : Int)
    (hr : (sys_ptree env t fuel).ret = some r) (hneg : r < 0) :
    (sys_ptree env t fuel).nrOut = none := by
  by_cases h1 : (env.bufNull || env.nrNull) = true
  · rw [sys_ptree_null env t fuel h1]
  by_cases h2 : env.getUserFault = true
  · rw [sys_ptree_getuser env t fuel h1 h2]
  by_cases h3 : env.nrIn < 1
  · rw [sys_ptree_badnr env t fuel h1 h2 h3]
  by_cases h4 : env.allocFault = true
  · rw [sys_ptree_nomem env t fuel h1 h2 h3 h4]
  rw [sys_ptree_walk env t fuel h1 h2 h3 h4] at hr ⊢
  have hcf : ¬ (((env.copyFailBytes : Nat) : Int) < 0) := by
    have := Int.natCast_nonneg env.copyFailBytes
    omega
  cases hd : dfs_add fuel t (kslotsOf env t).toNat with
  | none => rfl
  | some triple =>
    obtain ⟨kbuf, knr2, iterations⟩ := triple
    rw [hd] at hr
    by_cases hpf : env.putUserFault = true
    · simp [hcf, hpf]
    · simp only [if_neg hcf, hpf, Bool.false_eq_true, if_false,
        Option.some.injEq] at hr
      exfalso
      omega

/-- Environment for the C10 witness: a NULL buffer pointer. -/
def nullEnv : SysEnv := ⟨true, false, false, 5, false, 0, false⟩

/-- Witness for C10: a call failing with -EINVAL (NULL buffer) leaves the
caller's count location unwritten. -/
theorem claim_C10_witness : (sys_ptree nullEnv singleT 3).nrOut = none :=
  claim_C10 nullEnv singleT 3 (-EINVAL) rfl (by decide)

end Ptree
